import Mathlib

set_option maxRecDepth 4000

/- Shallow embedding of light/postprocess.go (akroma light-client index builders).

   Byte strings are lists of byte values; the key-value store and the trie are
   finite maps represented as functions from keys to optional values. External
   collaborators (chain store total-difficulty lookup, rlp encoding of ChtNode,
   the trie engine, the bloom-bits store, the compression codec, and the
   outcomes of store writes) are collected in the Env structure; the backend
   code is translated from the source against that interface. -/

abbrev Bytes : Type := List Nat

abbrev DB : Type := Bytes → Option Bytes

abbrev Trie : Type := Bytes → Option Bytes

/-- 2^64, the wrap-around modulus of Go uint64 arithmetic. -/
def U64LIMIT : Nat := 18446744073709551616

/-- binary.BigEndian.PutUint64: 8 big-endian bytes of n (mod 2^64). -/
def beU64 (n : Nat) : Bytes :=
  [n / 72057594037927936 % 256, n / 281474976710656 % 256, n / 1099511627776 % 256,
   n / 4294967296 % 256, n / 16777216 % 256, n / 65536 % 256, n / 256 % 256, n % 256]

/-- binary.BigEndian.PutUint16: 2 big-endian bytes of n (mod 2^16). -/
def beU16 (n : Nat) : Bytes := [n / 256 % 256, n % 256]

/-- The zero value of common.Hash: 32 zero bytes. -/
def zeroHash : Bytes := List.replicate 32 0

/-- common.BytesToHash / Hash.SetBytes: keep the last 32 bytes, left-pad with
    zeros to width 32. -/
def bytesToHash (b : Bytes) : Bytes :=
  if 32 < b.length then b.drop (b.length - 32)
  else List.replicate (32 - b.length) 0 ++ b

def ChtFrequency : Nat := 32768

def ChtV1Frequency : Nat := 4096

def HelperTrieConfirmations : Nat := 2048

def HelperTrieProcessConfirmations : Nat := 256

def BloomTrieFrequency : Nat := 32768

def ethBloomBitsSection : Nat := 4096

/-- types.BloomBitLength: the number of bloom filter bits. -/
def BloomBitLength : Nat := 2048

/-- The byte string "chtRoot-" (chtPrefix in the source). -/
def chtKeyTag : Bytes := [99, 104, 116, 82, 111, 111, 116, 45]

/-- The byte string "bltRoot-" (bloomTriePrefix in the source). -/
def bltKeyTag : Bytes := [98, 108, 116, 82, 111, 111, 116, 45]

/-- The root-record key chtPrefix ++ beU64(sectionIdx) ++ sectionHead. -/
def chtRootKey (sectionIdx : Nat) (sectionHead : Bytes) : Bytes :=
  chtKeyTag ++ beU64 sectionIdx ++ sectionHead

/-- The root-record key bloomTriePrefix ++ beU64(sectionIdx) ++ sectionHead. -/
def bloomRootKey (sectionIdx : Nat) (sectionHead : Bytes) : Bytes :=
  bltKeyTag ++ beU64 sectionIdx ++ sectionHead

/-- GetChtRoot: read the stored CHT root; a missing key yields nil data and
    hence the zero hash (the db.Get error is discarded in the source). -/
def GetChtRoot (db : DB) (sectionIdx : Nat) (sectionHead : Bytes) : Bytes :=
  bytesToHash ((db (chtRootKey sectionIdx sectionHead)).getD [])

/-- GetChtV2Root: translate a LES/2 section index to the LES/1 index and look
    that root up. -/
def GetChtV2Root (db : DB) (sectionIdx : Nat) (sectionHead : Bytes) : Bytes :=
  GetChtRoot db ((sectionIdx + 1) * (ChtFrequency / ChtV1Frequency) - 1) sectionHead

/-- GetBloomTrieRoot: read the stored BloomTrie root; missing key gives the
    zero hash. -/
def GetBloomTrieRoot (db : DB) (sectionIdx : Nat) (sectionHead : Bytes) : Bytes :=
  bytesToHash ((db (bloomRootKey sectionIdx sectionHead)).getD [])

/-- External collaborators of the two backends. -/
structure Env where
  /-- core.GetTd: total difficulty recorded for (hash, number), if any. -/
  getTd : Bytes → Nat → Option Nat
  /-- rlp.EncodeToBytes(ChtNode\x7bhash, td\x7d). -/
  rlpChtNode : Bytes → Nat → Bytes
  /-- trie.New(root, cdb): open the trie with the given root over the node
      store, or fail. Content addressing makes it a function of the root. -/
  trieNew : Bytes → Except String Trie
  /-- trie.CommitTo(batch): the committed root, or failure. -/
  commitTo : Trie → Except String Bytes
  /-- Outcome of batch.Write(); its error result is discarded by the source. -/
  batchWriteErr : Option String
  /-- Failure control of db.Put at a given key/value; its error result is
      discarded by the source (StoreChtRoot / StoreBloomTrieRoot). -/
  putErr : Bytes → Bytes → Option String
  /-- core.GetBloomBits(db, bit, sectionIdx, sectionHead). -/
  getBloomBits : Nat → Nat → Bytes → Except String Bytes
  /-- bitutil.DecompressBytes(data, targetLen). -/
  decompressBytes : Bytes → Nat → Except String Bytes
  /-- bitutil.CompressBytes(data). -/
  compressBytes : Bytes → Bytes

/-- A successful db.Put: point update of the store. -/
def dbUpdate (db : DB) (k v : Bytes) : DB :=
  fun q => if q = k then some v else db q

/-- db.Put with its possible failure. -/
def dbPut (env : Env) (db : DB) (k v : Bytes) : Except String DB :=
  match env.putErr k v with
  | some e => .error e
  | none => .ok (dbUpdate db k v)

/-- StoreChtRoot: db.Put of root under chtRootKey; the source discards the
    Put error, so a failed write leaves the store unchanged and is silent. -/
def StoreChtRoot (env : Env) (db : DB) (sectionIdx : Nat) (sectionHead root : Bytes) : DB :=
  match dbPut env db (chtRootKey sectionIdx sectionHead) root with
  | .ok db' => db'
  | .error _ => db

/-- StoreBloomTrieRoot: db.Put of root under bloomRootKey; the Put error is
    discarded as in the source. -/
def StoreBloomTrieRoot (env : Env) (db : DB) (sectionIdx : Nat) (sectionHead root : Bytes) : DB :=
  match dbPut env db (bloomRootKey sectionIdx sectionHead) root with
  | .ok db' => db'
  | .error _ => db

/-- trie.Update as used here: upsert of a key/value pair. -/
def trieUpdate (t : Trie) (k v : Bytes) : Trie :=
  fun q => if q = k then some v else t q

/-- trie.Delete: remove a key. -/
def trieDelete (t : Trie) (k : Bytes) : Trie :=
  fun q => if q = k then none else t q

/-- The data of types.Header this code reads: header.Hash() and
    header.Number.Uint64(). -/
structure Header where
  hash : Bytes
  number : Nat

/-- The mutable state of ChtIndexerBackend (the two database handles are
    passed explicitly; the field named section in the source is sectionIdx
    here). -/
structure ChtState where
  sectionIdx : Nat
  lastHash : Bytes
  trie : Trie

/-- The root a Reset opens its trie at: the previous section's stored root,
    or the zero hash for section 0. -/
def chtResetRoot (db : DB) (sectionIdx : Nat) (lastSectionHead : Bytes) : Bytes :=
  if sectionIdx > 0 then GetChtRoot db (sectionIdx - 1) lastSectionHead else zeroHash

/-- ChtIndexerBackend.Reset. -/
def chtReset (env : Env) (db : DB) (c : ChtState) (sectionIdx : Nat)
    (lastSectionHead : Bytes) : Except String ChtState :=
  match env.trieNew (chtResetRoot db sectionIdx lastSectionHead) with
  | .error e => .error e
  | .ok t => .ok { c with trie := t, sectionIdx := sectionIdx }

/-- ChtIndexerBackend.Process. A missing total difficulty makes the source
    panic(nil), which aborts the whole process; that is the none result here
    (no state survives, in particular nothing is inserted into the trie).
    Otherwise lastHash is set and the rlp-encoded ChtNode is inserted under
    the 8-byte big-endian block number. -/
def chtProcess (env : Env) (c : ChtState) (hd : Header) : Option ChtState :=
  match env.getTd hd.hash hd.number with
  | none => none
  | some td =>
    some { c with lastHash := hd.hash,
                  trie := trieUpdate c.trie (beU64 hd.number) (env.rlpChtNode hd.hash td) }

/-- Process applied to a list of headers in order; a panic aborts the run. -/
def chtProcessList (env : Env) (c : ChtState) : List Header → Option ChtState
  | [] => some c
  | hd :: rest =>
    match chtProcess env c hd with
    | none => none
    | some c' => chtProcessList env c' rest

/-- ChtIndexerBackend.Commit: commit the trie (propagating its error), write
    the node batch (its error result is discarded in the source, as is the
    db.Put error inside StoreChtRoot), and store the root record. The updated
    store is returned to make the write observable. -/
def chtCommit (env : Env) (c : ChtState) (db : DB) : Except String DB :=
  match env.commitTo c.trie with
  | .error e => .error e
  | .ok root => .ok (StoreChtRoot env db c.sectionIdx c.lastHash root)

/-- The whole scheduler cycle Reset / Process each header / Commit for the
    CHT backend; none is the panic of a missing total difficulty. -/
def chtCycle (env : Env) (db : DB) (c : ChtState) (sectionIdx : Nat)
    (lastSectionHead : Bytes) (hs : List Header) :
    Option (Except String (ChtState × DB)) :=
  match chtReset env db c sectionIdx lastSectionHead with
  | .error e => some (.error e)
  | .ok c1 =>
    match chtProcessList env c1 hs with
    | none => none
    | some c2 =>
      match chtCommit env c2 db with
      | .error e => some (.error e)
      | .ok db' => some (.ok (c2, db'))

/-- The mutable state of BloomTrieIndexerBackend (database handles passed
    explicitly; the field named section in the source is sectionIdx here). -/
structure BloomState where
  sectionIdx : Nat
  parentSectionSize : Nat
  bloomTrieRatio : Nat
  trie : Trie
  sectionHeads : List Bytes

/-- The sizing part of NewBloomTrieIndexer: parentSectionSize by mode,
    bloomTrieRatio = BloomTrieFrequency / parentSectionSize, and a
    sectionHeads array of bloomTrieRatio slots. Remaining fields start at
    their zero values. -/
def newBloomTrieBackend (clientMode : Bool) : BloomState :=
  let pss := if clientMode then BloomTrieFrequency else ethBloomBitsSection
  { sectionIdx := 0
    parentSectionSize := pss
    bloomTrieRatio := BloomTrieFrequency / pss
    trie := fun _ => none
    sectionHeads := List.replicate (BloomTrieFrequency / pss) zeroHash }

/-- BloomTrieIndexerBackend.Reset (sectionHeads is allocated once in the
    constructor and kept across Reset, as in the source). -/
def bloomReset (env : Env) (db : DB) (b : BloomState) (sectionIdx : Nat)
    (lastSectionHead : Bytes) : Except String BloomState :=
  let root := if sectionIdx > 0 then GetBloomTrieRoot db (sectionIdx - 1) lastSectionHead
              else zeroHash
  match env.trieNew root with
  | .error e => .error e
  | .ok t => .ok { b with trie := t, sectionIdx := sectionIdx }

/-- The offset num computed by BloomTrieIndexerBackend.Process:
    header.Number.Uint64() - b.section*BloomTrieFrequency with wrapping
    uint64 subtraction. -/
def bloomProcessNum (b : BloomState) (hd : Header) : Nat :=
  (hd.number % U64LIMIT + (U64LIMIT - b.sectionIdx * BloomTrieFrequency % U64LIMIT)) % U64LIMIT

/-- BloomTrieIndexerBackend.Process: when the header closes a parent
    sub-section, record its hash in slot num / parentSectionSize. -/
def bloomProcess (b : BloomState) (hd : Header) : BloomState :=
  let num := bloomProcessNum b hd
  if (num + 1) % b.parentSectionSize = 0 then
    { b with sectionHeads := b.sectionHeads.set (num / b.parentSectionSize) hd.hash }
  else b

/-- The 10-byte trie key of Commit: beU16(bit) ++ beU64(section). -/
def bloomBitKey (bit sectionIdx : Nat) : Bytes :=
  beU16 bit ++ beU64 sectionIdx

/-- The inner loop of BloomTrieIndexerBackend.Commit for one bit: fetch and
    decompress the bit-plane of each of the first n parent sub-sections, in
    increasing order, concatenating the decompressed chunks. -/
def bloomDecomp (env : Env) (b : BloomState) (i : Nat) : Nat → Except String Bytes
  | 0 => .ok []
  | n + 1 =>
    match bloomDecomp env b i n with
    | .error e => .error e
    | .ok acc =>
      match env.getBloomBits i (b.sectionIdx * b.bloomTrieRatio + n)
              (b.sectionHeads.getD n zeroHash) with
      | .error e => .error e
      | .ok data =>
        match env.decompressBytes data (b.parentSectionSize / 8) with
        | .error e2 => .error e2
        | .ok decompData => .ok (acc ++ decompData)

/-- One iteration of Commit's bit loop: build the concatenated bit-plane,
    compress it, and upsert the result under the bit key when non-empty,
    delete the key otherwise. -/
def bloomCommitBit (env : Env) (b : BloomState) (t : Trie) (i : Nat) : Except String Trie :=
  match bloomDecomp env b i b.bloomTrieRatio with
  | .error e => .error e
  | .ok decomp =>
    let comp := env.compressBytes decomp
    if comp.length > 0 then .ok (trieUpdate t (bloomBitKey i b.sectionIdx) comp)
    else .ok (trieDelete t (bloomBitKey i b.sectionIdx))

/-- Commit's loop over the listed bit indices, threading the trie. -/
def bloomCommitLoop (env : Env) (b : BloomState) (t : Trie) : List Nat → Except String Trie
  | [] => .ok t
  | i :: rest =>
    match bloomCommitBit env b t i with
    | .error e => .error e
    | .ok t' => bloomCommitLoop env b t' rest

/-- BloomTrieIndexerBackend.Commit: run the bit loop over all BloomBitLength
    bits, commit the trie (propagating its error; the batch.Write error
    result is discarded in the source, as is the db.Put error inside
    StoreBloomTrieRoot), and store the root record under the head of the
    last parent sub-section. -/
def bloomCommit (env : Env) (b : BloomState) (db : DB) : Except String DB :=
  match bloomCommitLoop env b b.trie (List.range BloomBitLength) with
  | .error e => .error e
  | .ok t =>
    match env.commitTo t with
    | .error e => .error e
    | .ok root =>
      .ok (StoreBloomTrieRoot env db b.sectionIdx
            (b.sectionHeads.getD (b.bloomTrieRatio - 1) zeroHash) root)

/- Concrete instances used by the witnesses below. -/

/-- A benign environment for the witnesses: every lookup succeeds and every
    store write succeeds. -/
def okEnv : Env :=
  { getTd := fun _ _ => some 1
    rlpChtNode := fun h td => h ++ beU64 td
    trieNew := fun _ => .ok (fun _ => none)
    commitTo := fun _ => .ok (List.replicate 32 2)
    batchWriteErr := none
    putErr := fun _ _ => none
    getBloomBits := fun _ _ _ => .ok [1]
    decompressBytes := fun _ n => .ok (List.replicate n 1)
    compressBytes := fun d => d }

/-- An environment whose store writes all fail (batch.Write and db.Put),
    while trie commits succeed. -/
def failPutEnv : Env :=
  { getTd := fun _ _ => some 0
    rlpChtNode := fun _ _ => [0]
    trieNew := fun _ => .ok (fun _ => none)
    commitTo := fun _ => .ok (List.replicate 32 1)
    batchWriteErr := some "batch write failed"
    putErr := fun _ _ => some "disk full"
    getBloomBits := fun _ _ _ => .ok []
    decompressBytes := fun _ _ => .ok []
    compressBytes := fun d => d }

/-- An environment whose trie opens and external fetches fail. -/
def errEnv : Env :=
  { getTd := fun _ _ => none
    rlpChtNode := fun _ _ => [0]
    trieNew := fun _ => .error "trie open failed"
    commitTo := fun _ => .error "commit failed"
    batchWriteErr := none
    putErr := fun _ _ => none
    getBloomBits := fun _ _ _ => .error "bloom bits missing"
    decompressBytes := fun _ _ => .error "decompress failed"
    compressBytes := fun d => d }

/-- An empty key-value store. -/
def dbEmpty : DB := fun _ => none

/-- A CHT backend state at its zero value. -/
def cState0 : ChtState := { sectionIdx := 0, lastHash := [], trie := fun _ => none }

/-- A sample header: the last header of section 0 at the large section size. -/
def wHeader : Header := { hash := List.replicate 32 9, number := 32767 }

/-- The CHT state after Reset(1, zeroHash) from cState0 in okEnv. -/
def cState1 : ChtState := { sectionIdx := 1, lastHash := [], trie := fun _ => none }

/-- The CHT state after processing wHeader from cState1 in okEnv. -/
def cState2 : ChtState :=
  { sectionIdx := 1
    lastHash := wHeader.hash
    trie := trieUpdate (fun _ => none) (beU64 wHeader.number)
              (okEnv.rlpChtNode wHeader.hash 1) }

/-- The store after okEnv's Commit from cState2 over dbEmpty. -/
def dbAfterCommit : DB :=
  dbUpdate dbEmpty (chtRootKey 1 wHeader.hash) (List.replicate 32 2)

/-- A small bloom backend state for the witnesses: two parent sub-sections of
    16 headers each. -/
def wBloom : BloomState :=
  { sectionIdx := 0
    parentSectionSize := 16
    bloomTrieRatio := 2
    trie := fun _ => none
    sectionHeads := [zeroHash, zeroHash] }

/-- The trie produced by okEnv's Commit bit loop from wBloom: every bit gets
    the same non-empty compressed plane [1, 1, 1, 1]. -/
def wBloomTrie : Trie :=
  (List.range BloomBitLength).foldl
    (fun t' i => trieUpdate t' (bloomBitKey i 0) [1, 1, 1, 1]) wBloom.trie

/-- A server-mode bloom backend state at section 0 used as C9's witness. -/
def wBloom9 : BloomState :=
  { sectionIdx := 0
    parentSectionSize := 4096
    bloomTrieRatio := 8
    trie := fun _ => none
    sectionHeads := List.replicate 8 zeroHash }

/-- A header closing the first parent sub-section of section 0. -/
def wHeader9 : Header := { hash := [3], number := 4095 }

/-- Theorem C3 support (claims are stated below the definitions). -/
theorem getChtV2Root_eq (db : DB) (v2 : Nat) (h : Bytes) :
    GetChtV2Root db v2 h = GetChtRoot db ((v2 + 1) * 8 - 1) h := by
  simp [GetChtV2Root, ChtFrequency, ChtV1Frequency]

/-- C3: GetChtV2Root looks up the v1-section root at (v2+1)*(32768/4096) - 1,
    which is (v2+1)*8 - 1; v2 section 0 maps to v1 section 7. -/
theorem c3_cht_v2_section_conversion (db : DB) (v2 : Nat) (h : Bytes) :
    GetChtV2Root db v2 h = GetChtRoot db ((v2 + 1) * 8 - 1) h ∧
    GetChtV2Root db 0 h = GetChtRoot db 7 h := by
  refine ⟨getChtV2Root_eq db v2 h, ?_⟩
  simpa using getChtV2Root_eq db 0 h

/-- C4: Process of the CHT backend aborts fatally (models panic(nil) as none,
    discarding all state, so nothing is inserted into the trie) exactly when
    the total-difficulty lookup finds nothing; it never returns a recoverable
    error value. -/
theorem c4_cht_process_panics_without_td (env : Env) (c : ChtState) (hd : Header) :
    chtProcess env c hd = none ↔ env.getTd hd.hash hd.number = none := by
  cases h : env.getTd hd.hash hd.number <;> simp [chtProcess, h]

/-- C8: root lookups with no stored record return the zero hash; both are
    total functions, so absence is signalled by the zero value rather than by
    an error. -/
theorem c8_missing_root_is_zero_hash (db : DB) (s : Nat) (h : Bytes)
    (h1 : db (chtRootKey s h) = none) (h2 : db (bloomRootKey s h) = none) :
    GetChtRoot db s h = zeroHash ∧ GetBloomTrieRoot db s h = zeroHash := by
  constructor
  · simp [GetChtRoot, h1, bytesToHash, zeroHash]
  · simp [GetBloomTrieRoot, h2, bytesToHash, zeroHash]

/-- Witness for C8 at a concrete empty store. -/
theorem c8_missing_root_is_zero_hash_witness :
    GetChtRoot (fun _ => none) 3 [5] = zeroHash ∧
    GetBloomTrieRoot (fun _ => none) 3 [5] = zeroHash :=
  c8_missing_root_is_zero_hash (fun _ => none) 3 [5] rfl rfl

/-- Destructuring a successful bit iteration of Commit. -/
theorem bloomCommitBit_ok (env : Env) (b : BloomState) (t : Trie) (i : Nat) (t1 : Trie)
    (h : bloomCommitBit env b t i = .ok t1) :
    ∃ d, bloomDecomp env b i b.bloomTrieRatio = .ok d ∧
      t1 = if (env.compressBytes d).length > 0 then
             trieUpdate t (bloomBitKey i b.sectionIdx) (env.compressBytes d)
           else trieDelete t (bloomBitKey i b.sectionIdx) := by
  cases hd : bloomDecomp env b i b.bloomTrieRatio with
  | error e => simp [bloomCommitBit, hd] at h
  | ok d =>
    refine ⟨d, rfl, ?_⟩
    simp only [bloomCommitBit, hd] at h
    split at h <;> split <;> simp_all

/-- Keys not listed in the bit loop are untouched by it. -/
theorem bloomCommitLoop_frame (env : Env) (b : BloomState) :
    ∀ (l : List Nat) (t T : Trie) (q : Bytes),
      (∀ j ∈ l, bloomBitKey j b.sectionIdx ≠ q) →
      bloomCommitLoop env b t l = .ok T → T q = t q := by
  intro l
  induction l with
  | nil =>
    intro t T q _ hT
    simp only [bloomCommitLoop] at hT
    cases hT
    rfl
  | cons i rest ih =>
    intro t T q hq hT
    simp only [bloomCommitLoop] at hT
    cases hbit : bloomCommitBit env b t i with
    | error e => rw [hbit] at hT; simp at hT
    | ok t1 =>
      rw [hbit] at hT
      have h1 := ih t1 T q (fun j hj => hq j (List.mem_cons_of_mem _ hj)) hT
      obtain ⟨d, _, ht1⟩ := bloomCommitBit_ok env b t i t1 hbit
      have hkey : q ≠ bloomBitKey i b.sectionIdx :=
        fun hh => hq i (List.mem_cons_self _ _) hh.symm
      rw [h1, ht1]
      split <;> simp [trieUpdate, trieDelete, hkey]

/-- The 10-byte bit keys of two distinct bit indices below 2^16 differ. -/
theorem bloomBitKey_inj (i i' s : Nat) (hi : i < 65536) (hi' : i' < 65536)
    (h : bloomBitKey i s = bloomBitKey i' s) : i = i' := by
  simp only [bloomBitKey, beU16, List.cons_append, List.nil_append,
    List.cons.injEq] at h
  omega

/-- The final trie of the bit loop holds, at each listed bit's key, exactly
    the compressed concatenated bit-plane when non-empty, and no entry when
    the compression is empty. -/
theorem bloomCommitLoop_lookup (env : Env) (b : BloomState) :
    ∀ (l : List Nat) (t T : Trie),
      (∀ j ∈ l, j < 65536) →
      bloomCommitLoop env b t l = .ok T →
      ∀ i ∈ l, ∃ d, bloomDecomp env b i b.bloomTrieRatio = .ok d ∧
        T (bloomBitKey i b.sectionIdx) =
          (if (env.compressBytes d).length > 0 then some (env.compressBytes d) else none) := by
  intro l
  induction l with
  | nil => intro t T _ _ i hi; simp at hi
  | cons i0 rest ih =>
    intro t T hl hT i hi
    simp only [bloomCommitLoop] at hT
    cases hbit : bloomCommitBit env b t i0 with
    | error e => rw [hbit] at hT; simp at hT
    | ok t1 =>
      rw [hbit] at hT
      by_cases hmem : i ∈ rest
      · exact ih t1 T (fun j hj => hl j (List.mem_cons_of_mem _ hj)) hT i hmem
      · have hii0 : i = i0 := by
          rcases List.mem_cons.mp hi with h | h
          · exact h
          · exact absurd h hmem
        subst hii0
        obtain ⟨d, hd, ht1⟩ := bloomCommitBit_ok env b t i t1 hbit
        refine ⟨d, hd, ?_⟩
        have hframe : T (bloomBitKey i b.sectionIdx) = t1 (bloomBitKey i b.sectionIdx) := by
          refine bloomCommitLoop_frame env b rest t1 T _ ?_ hT
          intro j hj hkey
          exact hmem (bloomBitKey_inj j i b.sectionIdx
            (hl j (List.mem_cons_of_mem _ hj)) (hl i hi) hkey ▸ hj)
        rw [hframe, ht1]
        split <;> simp [trieUpdate, trieDelete]

/-- A successful inner loop of Commit decomposes into the ordered list of
    fetched-and-decompressed parent chunks whose concatenation it returns. -/
theorem bloomDecomp_chunks (env : Env) (b : BloomState) (i : Nat) :
    ∀ (n : Nat) (d : Bytes), bloomDecomp env b i n = .ok d →
      ∃ chunks : List Bytes, chunks.length = n ∧ d = chunks.flatten ∧
        ∀ j, j < n →
          ∃ data, env.getBloomBits i (b.sectionIdx * b.bloomTrieRatio + j)
                    (b.sectionHeads.getD j zeroHash) = .ok data ∧
            env.decompressBytes data (b.parentSectionSize / 8) = .ok (chunks.getD j []) := by
  intro n
  induction n with
  | zero =>
    intro d h
    simp only [bloomDecomp] at h
    cases h
    exact ⟨[], rfl, rfl, fun j hj => absurd hj (by omega)⟩
  | succ n ih =>
    intro d h
    cases hacc : bloomDecomp env b i n with
    | error e => simp [bloomDecomp, hacc] at h
    | ok acc =>
      cases hdata : env.getBloomBits i (b.sectionIdx * b.bloomTrieRatio + n)
          (b.sectionHeads.getD n zeroHash) with
      | error e =>
        simp only [bloomDecomp, hacc, hdata] at h
        exact Except.noConfusion h
      | ok data =>
        cases hdec : env.decompressBytes data (b.parentSectionSize / 8) with
        | error e2 =>
          simp only [bloomDecomp, hacc, hdata, hdec] at h
          exact Except.noConfusion h
        | ok dec =>
          simp only [bloomDecomp, hacc, hdata, hdec, Except.ok.injEq] at h
          subst h
          obtain ⟨chunks, hlen, hflat, hall⟩ := ih acc hacc
          refine ⟨chunks ++ [dec], by simp [hlen], ?_, ?_⟩
          · rw [hflat]; simp
          · intro j hj
            by_cases hjn : j < n
            · obtain ⟨data', h1, h2⟩ := hall j hjn
              refine ⟨data', h1, ?_⟩
              rwa [List.getD_append _ _ _ _ (by omega)]
            · have hj' : j = n := by omega
              subst hj'
              refine ⟨data, hdata, ?_⟩
              rw [List.getD_append_right _ _ _ _ (by omega), hlen]
              simpa using hdec

/-- C1: for a successfully committed bloom-trie section, each bit's
    decompressed bit-plane is the exact concatenation, in increasing parent
    sub-section order j, of DecompressBytes(GetBloomBits(i, S*ratio+j,
    sectionHeads[j]), parentSectionSize/8), and the trie holds the
    compression of that concatenation under the 10-byte key
    beU16(i) ++ beU64(S) (absent when the compression is empty). -/
theorem c1_bloom_commit_aggregation (env : Env) (b : BloomState) (T : Trie)
    (hT : bloomCommitLoop env b b.trie (List.range BloomBitLength) = .ok T)
    (i : Nat) (hi : i < BloomBitLength) :
    ∃ d chunks, bloomDecomp env b i b.bloomTrieRatio = .ok d ∧
      chunks.length = b.bloomTrieRatio ∧ d = List.flatten chunks ∧
      (∀ j, j < b.bloomTrieRatio →
        ∃ data, env.getBloomBits i (b.sectionIdx * b.bloomTrieRatio + j)
                  (b.sectionHeads.getD j zeroHash) = .ok data ∧
          env.decompressBytes data (b.parentSectionSize / 8) = .ok (chunks.getD j [])) ∧
      (bloomBitKey i b.sectionIdx).length = 10 ∧
      bloomBitKey i b.sectionIdx = beU16 i ++ beU64 b.sectionIdx ∧
      T (bloomBitKey i b.sectionIdx) =
        (if (env.compressBytes d).length > 0 then some (env.compressBytes d) else none) := by
  have hl : ∀ j ∈ List.range BloomBitLength, j < 65536 := by
    intro j hj
    have := List.mem_range.mp hj
    simp only [BloomBitLength] at this
    omega
  obtain ⟨d, hd, hTd⟩ := bloomCommitLoop_lookup env b (List.range BloomBitLength) b.trie T hl hT
    i (List.mem_range.mpr hi)
  obtain ⟨chunks, h1, h2, h3⟩ := bloomDecomp_chunks env b i b.bloomTrieRatio d hd
  exact ⟨d, chunks, hd, h1, h2, h3, by simp [bloomBitKey, beU16, beU64], rfl, hTd⟩

/-- C2: each bit's compressed plane is stored when non-empty and its key is
    deleted when empty, so the committed trie never maps a bloom-bit key of
    this section to an empty value. -/
theorem c2_bloom_commit_no_empty_value (env : Env) (b : BloomState) (T : Trie)
    (hT : bloomCommitLoop env b b.trie (List.range BloomBitLength) = .ok T)
    (i : Nat) (hi : i < BloomBitLength) :
    ∃ d, bloomDecomp env b i b.bloomTrieRatio = .ok d ∧
      (env.compressBytes d ≠ [] → T (bloomBitKey i b.sectionIdx) = some (env.compressBytes d)) ∧
      (env.compressBytes d = [] → T (bloomBitKey i b.sectionIdx) = none) ∧
      T (bloomBitKey i b.sectionIdx) ≠ some [] := by
  have hl : ∀ j ∈ List.range BloomBitLength, j < 65536 := by
    intro j hj
    have := List.mem_range.mp hj
    simp only [BloomBitLength] at this
    omega
  obtain ⟨d, hd, hTd⟩ := bloomCommitLoop_lookup env b (List.range BloomBitLength) b.trie T hl hT
    i (List.mem_range.mpr hi)
  refine ⟨d, hd, ?_, ?_, ?_⟩
  · intro hne
    rw [hTd, if_pos (by simpa [List.length_pos] using hne)]
  · intro he
    rw [hTd, if_neg (by simp [he])]
  · rw [hTd]
    split <;> rename_i hc
    · intro hcontra
      have : env.compressBytes d = [] := by simpa using hcontra
      simp [this] at hc
    · simp

/-- In okEnv over wBloom every bit succeeds with plane [1, 1, 1, 1], so the
    bit loop is the fold of updates recorded in wBloomTrie. -/
theorem okEnv_commit_loop :
    ∀ (l : List Nat) (t : Trie),
      bloomCommitLoop okEnv wBloom t l =
        .ok (l.foldl (fun t' i => trieUpdate t' (bloomBitKey i 0) [1, 1, 1, 1]) t) := by
  intro l
  induction l with
  | nil => intro t; rfl
  | cons i rest ih =>
    intro t
    have hbit : bloomCommitBit okEnv wBloom t i =
        .ok (trieUpdate t (bloomBitKey i 0) [1, 1, 1, 1]) := rfl
    simp only [bloomCommitLoop, hbit, List.foldl]
    exact ih _

/-- Witness for C1 at bit 5 of the concrete wBloom commit. -/
theorem c1_bloom_commit_aggregation_witness :
    bloomCommitLoop okEnv wBloom wBloom.trie (List.range BloomBitLength) = .ok wBloomTrie ∧
    (∃ d chunks, bloomDecomp okEnv wBloom 5 wBloom.bloomTrieRatio = .ok d ∧
      chunks.length = wBloom.bloomTrieRatio ∧ d = List.flatten chunks ∧
      (∀ j, j < wBloom.bloomTrieRatio →
        ∃ data, okEnv.getBloomBits 5 (wBloom.sectionIdx * wBloom.bloomTrieRatio + j)
                  (wBloom.sectionHeads.getD j zeroHash) = .ok data ∧
          okEnv.decompressBytes data (wBloom.parentSectionSize / 8) = .ok (chunks.getD j [])) ∧
      (bloomBitKey 5 wBloom.sectionIdx).length = 10 ∧
      bloomBitKey 5 wBloom.sectionIdx = beU16 5 ++ beU64 wBloom.sectionIdx ∧
      wBloomTrie (bloomBitKey 5 wBloom.sectionIdx) =
        (if (okEnv.compressBytes d).length > 0 then some (okEnv.compressBytes d) else none)) :=
  ⟨okEnv_commit_loop (List.range BloomBitLength) wBloom.trie,
   c1_bloom_commit_aggregation okEnv wBloom wBloomTrie
     (okEnv_commit_loop (List.range BloomBitLength) wBloom.trie) 5 (by decide)⟩

/-- Witness for C2 at bit 7 of the concrete wBloom commit. -/
theorem c2_bloom_commit_no_empty_value_witness :
    bloomCommitLoop okEnv wBloom wBloom.trie (List.range BloomBitLength) = .ok wBloomTrie ∧
    (∃ d, bloomDecomp okEnv wBloom 7 wBloom.bloomTrieRatio = .ok d ∧
      (okEnv.compressBytes d ≠ [] →
        wBloomTrie (bloomBitKey 7 wBloom.sectionIdx) = some (okEnv.compressBytes d)) ∧
      (okEnv.compressBytes d = [] → wBloomTrie (bloomBitKey 7 wBloom.sectionIdx) = none) ∧
      wBloomTrie (bloomBitKey 7 wBloom.sectionIdx) ≠ some []) :=
  ⟨okEnv_commit_loop (List.range BloomBitLength) wBloom.trie,
   c2_bloom_commit_no_empty_value okEnv wBloom wBloomTrie
     (okEnv_commit_loop (List.range BloomBitLength) wBloom.trie) 7 (by decide)⟩

/-- C5: with the total difficulty present, Process inserts the rlp-encoded
    ChtNode under the 8-byte big-endian block number and records the header
    hash as lastHash; Commit then obtains the trie root and persists it under
    chtPrefix ++ beU64(section) ++ lastHash. -/
theorem c5_cht_process_insert_and_commit (env : Env) (c : ChtState) (hd : Header)
    (td : Nat) (db : DB) (root : Bytes)
    (htd : env.getTd hd.hash hd.number = some td)
    (hroot : env.commitTo (trieUpdate c.trie (beU64 hd.number) (env.rlpChtNode hd.hash td)) =
      .ok root)
    (hput : env.putErr (chtRootKey c.sectionIdx hd.hash) root = none) :
    ∃ c', chtProcess env c hd = some c' ∧
      c'.lastHash = hd.hash ∧
      c'.trie = trieUpdate c.trie (beU64 hd.number) (env.rlpChtNode hd.hash td) ∧
      c'.trie (beU64 hd.number) = some (env.rlpChtNode hd.hash td) ∧
      (beU64 hd.number).length = 8 ∧
      chtCommit env c' db = .ok (StoreChtRoot env db c.sectionIdx hd.hash root) ∧
      StoreChtRoot env db c.sectionIdx hd.hash root
        (chtKeyTag ++ beU64 c.sectionIdx ++ hd.hash) = some root := by
  refine ⟨(⟨c.sectionIdx, hd.hash,
      trieUpdate c.trie (beU64 hd.number) (env.rlpChtNode hd.hash td)⟩ : ChtState),
    ?_, rfl, rfl, ?_, ?_, ?_, ?_⟩
  · simp [chtProcess, htd]
  · simp [trieUpdate]
  · simp [beU64]
  · simp [chtCommit, hroot]
  · have hput' : env.putErr (chtKeyTag ++ (beU64 c.sectionIdx ++ hd.hash)) root = none := by
      simpa [chtRootKey] using hput
    simp [StoreChtRoot, dbPut, hput', dbUpdate, chtRootKey]

/-- Witness for C5 on the benign environment. -/
theorem c5_cht_process_insert_and_commit_witness :
    okEnv.getTd wHeader.hash wHeader.number = some 1 ∧
    okEnv.commitTo (trieUpdate cState1.trie (beU64 wHeader.number)
      (okEnv.rlpChtNode wHeader.hash 1)) = .ok (List.replicate 32 2) ∧
    okEnv.putErr (chtRootKey cState1.sectionIdx wHeader.hash) (List.replicate 32 2) = none ∧
    (∃ c', chtProcess okEnv cState1 wHeader = some c' ∧
      c'.lastHash = wHeader.hash ∧
      c'.trie = trieUpdate cState1.trie (beU64 wHeader.number) (okEnv.rlpChtNode wHeader.hash 1) ∧
      c'.trie (beU64 wHeader.number) = some (okEnv.rlpChtNode wHeader.hash 1) ∧
      (beU64 wHeader.number).length = 8 ∧
      chtCommit okEnv c' dbEmpty =
        .ok (StoreChtRoot okEnv dbEmpty cState1.sectionIdx wHeader.hash (List.replicate 32 2)) ∧
      StoreChtRoot okEnv dbEmpty cState1.sectionIdx wHeader.hash (List.replicate 32 2)
        (chtKeyTag ++ beU64 cState1.sectionIdx ++ wHeader.hash) = some (List.replicate 32 2)) :=
  ⟨rfl, rfl, rfl,
   c5_cht_process_insert_and_commit okEnv cState1 wHeader 1 dbEmpty (List.replicate 32 2)
     rfl rfl rfl⟩

/-- C6 counterexample: with failing store writes (batch.Write and db.Put both
    report errors), ChtIndexerBackend.Commit still returns success and leaves
    the store unchanged: the write failure is discarded, not propagated. -/
theorem c6_counterexample_commit_swallows_write_failure :
    failPutEnv.putErr (chtRootKey cState0.sectionIdx cState0.lastHash) (List.replicate 32 1) =
      some "disk full" ∧
    failPutEnv.batchWriteErr = some "batch write failed" ∧
    chtCommit failPutEnv cState0 dbEmpty = .ok dbEmpty ∧
    dbEmpty (chtRootKey cState0.sectionIdx cState0.lastHash) = none :=
  ⟨rfl, rfl, rfl, rfl⟩

/-- C6 as amended: the trie-open failure of Reset, fetch/decompression
    failures inside the Commit bit loop and CommitTo failures are propagated
    as returned errors; but Commit returns success whenever CommitTo
    succeeds, whatever the outcome of the batch write and of the root-record
    Put (those failures are discarded by the source). -/
theorem c6_error_propagation (env : Env) (db : DB) (c : ChtState) (b : BloomState)
    (s : Nat) (prev : Bytes) (e : String) (t : Trie) (i : Nat) (rest : List Nat)
    (root : Bytes) :
    (env.trieNew (chtResetRoot db s prev) = .error e →
      chtReset env db c s prev = .error e) ∧
    (env.trieNew (if s > 0 then GetBloomTrieRoot db (s - 1) prev else zeroHash) = .error e →
      bloomReset env db b s prev = .error e) ∧
    (bloomDecomp env b i b.bloomTrieRatio = .error e → bloomCommitBit env b t i = .error e) ∧
    (bloomCommitBit env b b.trie i = .error e →
      bloomCommitLoop env b b.trie (i :: rest) = .error e) ∧
    (bloomCommitLoop env b b.trie (List.range BloomBitLength) = .error e →
      bloomCommit env b db = .error e) ∧
    (bloomCommitLoop env b b.trie (List.range BloomBitLength) = .ok t →
      env.commitTo t = .error e → bloomCommit env b db = .error e) ∧
    (env.commitTo c.trie = .error e → chtCommit env c db = .error e) ∧
    (env.commitTo c.trie = .ok root →
      chtCommit env c db = .ok (StoreChtRoot env db c.sectionIdx c.lastHash root)) := by
  refine ⟨?_, ?_, ?_, ?_, ?_, ?_, ?_, ?_⟩
  · intro h; simp [chtReset, h]
  · intro h; simp [bloomReset, h]
  · intro h; simp [bloomCommitBit, h]
  · intro h; simp [bloomCommitLoop, h]
  · intro h; simp [bloomCommit, h]
  · intro h1 h2; simp [bloomCommit, h1, h2]
  · intro h; simp [chtCommit, h]
  · intro h; simp [chtCommit, h]

/-- Witness for the amended C6 on concrete failing and succeeding
    environments. -/
theorem c6_error_propagation_witness :
    chtReset errEnv dbEmpty cState0 0 [] = .error "trie open failed" ∧
    bloomCommitBit errEnv wBloom (fun _ => none) 0 = .error "bloom bits missing" ∧
    chtCommit errEnv cState0 dbEmpty = .error "commit failed" ∧
    chtCommit failPutEnv cState0 dbEmpty =
      .ok (StoreChtRoot failPutEnv dbEmpty cState0.sectionIdx cState0.lastHash
            (List.replicate 32 1)) :=
  ⟨(c6_error_propagation errEnv dbEmpty cState0 wBloom 0 [] "trie open failed"
      (fun _ => none) 0 [] []).1 rfl,
   (c6_error_propagation errEnv dbEmpty cState0 wBloom 0 [] "bloom bits missing"
      (fun _ => none) 0 [] []).2.2.1 rfl,
   (c6_error_propagation errEnv dbEmpty cState0 wBloom 0 [] "commit failed"
      (fun _ => none) 0 [] []).2.2.2.2.2.2.1 rfl,
   (c6_error_propagation failPutEnv dbEmpty cState0 wBloom 0 [] "unused"
      (fun _ => none) 0 [] (List.replicate 32 1)).2.2.2.2.2.2.2 rfl⟩

/-- Consecutive section indices have different 8-byte encodings. -/
theorem beU64_pred_ne (s : Nat) (hs : 0 < s) : beU64 (s - 1) ≠ beU64 s := by
  intro h
  simp only [beU64, List.cons.injEq, and_true] at h
  omega

/-- The previous section's root-record key differs from the current one,
    whatever the two head hashes are. -/
theorem chtRootKey_pred_ne (s : Nat) (hs : 0 < s) (x y : Bytes) :
    chtRootKey (s - 1) x ≠ chtRootKey s y := by
  intro h
  unfold chtRootKey at h
  rw [List.append_assoc, List.append_assoc] at h
  have h2 := List.append_cancel_left h
  have h3 := (List.append_inj h2 (by simp [beU64])).1
  exact beU64_pred_ne s hs h3

/-- Process keeps the section index. -/
theorem chtProcessList_sectionIdx (env : Env) :
    ∀ (hs : List Header) (b b' : ChtState),
      chtProcessList env b hs = some b' → b'.sectionIdx = b.sectionIdx := by
  intro hs
  induction hs with
  | nil =>
    intro b b' h
    simp only [chtProcessList, Option.some.injEq] at h
    rw [← h]
  | cons hd rest ih =>
    intro b b' h
    simp only [chtProcessList] at h
    cases htd : env.getTd hd.hash hd.number with
    | none => simp [chtProcess, htd] at h
    | some td =>
      simp only [chtProcess, htd] at h
      exact ih ⟨b.sectionIdx, hd.hash,
        trieUpdate b.trie (beU64 hd.number) (env.rlpChtNode hd.hash td)⟩ b' h

/-- Determinism of a Process run: two starting states with the same trie and
    section produce runs that succeed together, end with the same trie and
    section, and (on a non-empty header list) the same lastHash. -/
theorem chtProcessList_det (env : Env) :
    ∀ (hs : List Header) (b d b' : ChtState),
      chtProcessList env b hs = some b' → d.trie = b.trie → d.sectionIdx = b.sectionIdx →
      ∃ d', chtProcessList env d hs = some d' ∧ d'.trie = b'.trie ∧
        d'.sectionIdx = b'.sectionIdx ∧
        (hs = [] → b' = b ∧ d' = d) ∧ (hs ≠ [] → d'.lastHash = b'.lastHash) := by
  intro hs
  induction hs with
  | nil =>
    intro b d b' h ht hsec
    simp only [chtProcessList, Option.some.injEq] at h
    subst h
    exact ⟨d, rfl, ht, hsec, fun _ => ⟨rfl, rfl⟩, fun hne => absurd rfl hne⟩
  | cons hd rest ih =>
    intro b d b' h ht hsec
    simp only [chtProcessList] at h
    cases htd : env.getTd hd.hash hd.number with
    | none => simp [chtProcess, htd] at h
    | some td =>
      simp only [chtProcess, htd] at h
      have hstep : chtProcess env d hd =
          some { d with lastHash := hd.hash,
                        trie := trieUpdate d.trie (beU64 hd.number) (env.rlpChtNode hd.hash td) } := by
        simp [chtProcess, htd]
      obtain ⟨d', hd', htrie, hsec', hnil, hne⟩ := ih
        { b with lastHash := hd.hash,
                 trie := trieUpdate b.trie (beU64 hd.number) (env.rlpChtNode hd.hash td) }
        { d with lastHash := hd.hash,
                 trie := trieUpdate d.trie (beU64 hd.number) (env.rlpChtNode hd.hash td) }
        b' h (by simp [ht]) (by simp [hsec])
      refine ⟨d', ?_, htrie, hsec', fun hnil' => absurd hnil' (by simp), ?_⟩
      · simp only [chtProcessList, hstep]
        exact hd'
      · intro _
        by_cases hrest : rest = []
        · subst hrest
          obtain ⟨hb, hdq⟩ := hnil rfl
          rw [hdq, hb]
        · exact hne hrest

/-- C7: re-running the full Reset/Process/Commit cycle of the CHT backend
    with identical inputs, from the state and store left by a successful
    first run, succeeds again, produces the same trie root, and overwrites
    the stored root record with an identical value (the store is unchanged). -/
theorem c7_cht_commit_idempotent (env : Env) (db : DB) (c c1 c2 : ChtState)
    (s : Nat) (prev : Bytes) (hs : List Header) (r1 : Bytes) (db1 : DB)
    (hreset : chtReset env db c s prev = .ok c1)
    (hproc : chtProcessList env c1 hs = some c2)
    (hroot : env.commitTo c2.trie = .ok r1)
    (hcommit : chtCommit env c2 db = .ok db1) :
    ∃ c1' c2', chtReset env db1 c2 s prev = .ok c1' ∧
      chtProcessList env c1' hs = some c2' ∧
      env.commitTo c2'.trie = .ok r1 ∧
      chtCommit env c2' db1 = .ok db1 := by
  cases htn : env.trieNew (chtResetRoot db s prev) with
  | error e => simp [chtReset, htn] at hreset
  | ok t =>
    simp only [chtReset, htn, Except.ok.injEq] at hreset
    simp only [chtCommit, hroot, Except.ok.injEq] at hcommit
    have hs2 : c2.sectionIdx = s := by
      rw [chtProcessList_sectionIdx env hs c1 c2 hproc, ← hreset]
    have hrr : chtResetRoot db1 s prev = chtResetRoot db s prev := by
      unfold chtResetRoot
      by_cases hsz : s > 0
      · rw [if_pos hsz, if_pos hsz, ← hcommit, hs2]
        unfold GetChtRoot StoreChtRoot dbPut
        cases hpe : env.putErr (chtRootKey s c2.lastHash) r1 with
        | some e => simp [hpe]
        | none =>
          simp only [hpe, dbUpdate]
          rw [if_neg (chtRootKey_pred_ne s hsz prev c2.lastHash)]
      · rw [if_neg hsz, if_neg hsz]
    have hreset2 : chtReset env db1 c2 s prev =
        .ok { c2 with trie := t, sectionIdx := s } := by
      simp [chtReset, hrr, htn]
    have hc1trie : c1.trie = t := by rw [← hreset]
    have hc1sec : c1.sectionIdx = s := by rw [← hreset]
    obtain ⟨c2', hproc2, htrie', hsec', hnil, hne⟩ :=
      chtProcessList_det env hs c1 { c2 with trie := t, sectionIdx := s } c2 hproc
        (by rw [hc1trie]) (by rw [hc1sec])
    have hlast : c2'.lastHash = c2.lastHash := by
      by_cases hhs : hs = []
      · obtain ⟨hb, hd'⟩ := hnil hhs
        rw [hd']
      · exact hne hhs
    have hcc : env.commitTo c2'.trie = .ok r1 := by rw [htrie']; exact hroot
    refine ⟨{ c2 with trie := t, sectionIdx := s }, c2', hreset2, hproc2, hcc, ?_⟩
    simp only [chtCommit, hcc, Except.ok.injEq]
    rw [hsec', hs2, hlast, ← hcommit, hs2]
    unfold StoreChtRoot dbPut
    cases hpe : env.putErr (chtRootKey s c2.lastHash) r1 with
    | some e => simp [hpe]
    | none =>
      simp only [hpe]
      funext q
      simp only [dbUpdate]
      by_cases hq : q = chtRootKey s c2.lastHash <;> simp [hq]

/-- Witness for C7: a one-header section committed twice in the benign
    environment. -/
theorem c7_cht_commit_idempotent_witness :
    chtReset okEnv dbEmpty cState0 1 zeroHash = .ok cState1 ∧
    chtProcessList okEnv cState1 [wHeader] = some cState2 ∧
    okEnv.commitTo cState2.trie = .ok (List.replicate 32 2) ∧
    chtCommit okEnv cState2 dbEmpty = .ok dbAfterCommit ∧
    (∃ c1' c2', chtReset okEnv dbAfterCommit cState2 1 zeroHash = .ok c1' ∧
      chtProcessList okEnv c1' [wHeader] = some c2' ∧
      okEnv.commitTo c2'.trie = .ok (List.replicate 32 2) ∧
      chtCommit okEnv c2' dbAfterCommit = .ok dbAfterCommit) :=
  ⟨rfl, rfl, rfl, rfl,
   c7_cht_commit_idempotent okEnv dbEmpty cState0 cState1 cState2 1 zeroHash [wHeader]
     (List.replicate 32 2) dbAfterCommit rfl rfl rfl rfl⟩

/-- C9: under the scheduler precondition that the header's (uint64) number
    lies in the current bloom-trie section, the wrapped offset equals the
    plain difference (no underflow), the ratio of a constructed backend is at
    least one, the slot index stays below the ratio (in particular when the
    header closes a parent sub-section), and both sectionHeads accesses are
    in bounds. -/
theorem c9_bloom_process_in_bounds (cm : Bool) (b : BloomState) (hd : Header)
    (hps : b.parentSectionSize = (newBloomTrieBackend cm).parentSectionSize)
    (hr : b.bloomTrieRatio = (newBloomTrieBackend cm).bloomTrieRatio)
    (hlen : b.sectionHeads.length = b.bloomTrieRatio)
    (h1 : b.sectionIdx * BloomTrieFrequency ≤ hd.number)
    (h2 : hd.number < (b.sectionIdx + 1) * BloomTrieFrequency)
    (h64 : hd.number < U64LIMIT) :
    bloomProcessNum b hd = hd.number - b.sectionIdx * BloomTrieFrequency ∧
    1 ≤ b.bloomTrieRatio ∧
    bloomProcessNum b hd / b.parentSectionSize < b.bloomTrieRatio ∧
    ((bloomProcessNum b hd + 1) % b.parentSectionSize = 0 →
      bloomProcessNum b hd / b.parentSectionSize < b.sectionHeads.length) ∧
    b.bloomTrieRatio - 1 < b.sectionHeads.length := by
  have hnum : bloomProcessNum b hd = hd.number - b.sectionIdx * BloomTrieFrequency := by
    simp only [bloomProcessNum, U64LIMIT, BloomTrieFrequency] at h1 h2 h64 ⊢
    omega
  cases cm with
  | false =>
    have hps' : b.parentSectionSize = 4096 := by
      simpa [newBloomTrieBackend, ethBloomBitsSection] using hps
    have hr' : b.bloomTrieRatio = 8 := by
      simpa [newBloomTrieBackend, BloomTrieFrequency, ethBloomBitsSection] using hr
    simp only [BloomTrieFrequency] at h1 h2
    refine ⟨hnum, by omega, ?_, fun _ => ?_, by omega⟩
    · rw [hnum, hps', hr']
      simp only [BloomTrieFrequency]
      omega
    · rw [hnum, hps', hlen, hr']
      simp only [BloomTrieFrequency]
      omega
  | true =>
    have hps' : b.parentSectionSize = 32768 := by
      simpa [newBloomTrieBackend, BloomTrieFrequency] using hps
    have hr' : b.bloomTrieRatio = 1 := by
      simpa [newBloomTrieBackend, BloomTrieFrequency] using hr
    simp only [BloomTrieFrequency] at h1 h2
    refine ⟨hnum, by omega, ?_, fun _ => ?_, by omega⟩
    · rw [hnum, hps', hr']
      simp only [BloomTrieFrequency]
      omega
    · rw [hnum, hps', hlen, hr']
      simp only [BloomTrieFrequency]
      omega

/-- Witness for C9 in server mode. -/
theorem c9_bloom_process_in_bounds_witness :
    wBloom9.parentSectionSize = (newBloomTrieBackend false).parentSectionSize ∧
    wBloom9.bloomTrieRatio = (newBloomTrieBackend false).bloomTrieRatio ∧
    wBloom9.sectionHeads.length = wBloom9.bloomTrieRatio ∧
    wBloom9.sectionIdx * BloomTrieFrequency ≤ wHeader9.number ∧
    wHeader9.number < (wBloom9.sectionIdx + 1) * BloomTrieFrequency ∧
    wHeader9.number < U64LIMIT ∧
    (bloomProcessNum wBloom9 wHeader9 =
        wHeader9.number - wBloom9.sectionIdx * BloomTrieFrequency ∧
      1 ≤ wBloom9.bloomTrieRatio ∧
      bloomProcessNum wBloom9 wHeader9 / wBloom9.parentSectionSize < wBloom9.bloomTrieRatio ∧
      ((bloomProcessNum wBloom9 wHeader9 + 1) % wBloom9.parentSectionSize = 0 →
        bloomProcessNum wBloom9 wHeader9 / wBloom9.parentSectionSize <
          wBloom9.sectionHeads.length) ∧
      wBloom9.bloomTrieRatio - 1 < wBloom9.sectionHeads.length) :=
  ⟨rfl, rfl, rfl, by decide, by decide, by decide,
   c9_bloom_process_in_bounds false wBloom9 wHeader9 rfl rfl rfl
     (by decide) (by decide) (by decide)⟩

/-- C10: a Process call of the bloom backend changes at most one slot of
    sectionHeads and nothing else; it takes no store argument at all (it
    cannot write the database), and any sequence of Process calls leaves the
    in-flight trie and the section index unchanged. -/
theorem c10_bloom_process_frame (b : BloomState) (hd : Header) (hs : List Header) :
    (bloomProcess b hd).trie = b.trie ∧
    (bloomProcess b hd).sectionIdx = b.sectionIdx ∧
    (bloomProcess b hd).parentSectionSize = b.parentSectionSize ∧
    (bloomProcess b hd).bloomTrieRatio = b.bloomTrieRatio ∧
    (∀ k, k ≠ bloomProcessNum b hd / b.parentSectionSize →
      (bloomProcess b hd).sectionHeads.getD k zeroHash = b.sectionHeads.getD k zeroHash) ∧
    (hs.foldl bloomProcess b).trie = b.trie ∧
    (hs.foldl bloomProcess b).sectionIdx = b.sectionIdx := by
  have hstep : ∀ (b : BloomState) (hd : Header),
      (bloomProcess b hd).trie = b.trie ∧ (bloomProcess b hd).sectionIdx = b.sectionIdx ∧
      (bloomProcess b hd).parentSectionSize = b.parentSectionSize ∧
      (bloomProcess b hd).bloomTrieRatio = b.bloomTrieRatio := by
    intro b hd
    simp only [bloomProcess]
    split <;> simp
  have hfold : ∀ (hs : List Header) (b : BloomState),
      (hs.foldl bloomProcess b).trie = b.trie ∧
      (hs.foldl bloomProcess b).sectionIdx = b.sectionIdx := by
    intro hs
    induction hs with
    | nil => intro b; exact ⟨rfl, rfl⟩
    | cons h rest ih =>
      intro b
      refine ⟨?_, ?_⟩
      · rw [List.foldl_cons, (ih (bloomProcess b h)).1, (hstep b h).1]
      · rw [List.foldl_cons, (ih (bloomProcess b h)).2, (hstep b h).2.1]
  refine ⟨(hstep b hd).1, (hstep b hd).2.1, (hstep b hd).2.2.1, (hstep b hd).2.2.2,
    ?_, (hfold hs b).1, (hfold hs b).2⟩
  intro k hk
  simp only [bloomProcess]
  split
  · simp only [List.getD_eq_getElem?_getD]
    rw [List.getElem?_set_ne (fun he => hk he.symm)]
  · rfl
